import Mathlib

/-!
Shallow embedding of src/SoM_Flash_Monitor.py.

The Python program monitors firmware flashing of several boards attached over
serial ports.  We model, faithfully to the source:

* `utf8DecodeIgnore` — the call decode("utf-8", errors="ignore") on a byte
  chunk: a lossy UTF-8 decoder that silently drops undecodable bytes and, by
  construction, never raises;
* `processLine` and `runLines` — the body of `Worker.run` acting on the
  sequence of raw lines that arrive on the port while `self.running` holds;
* `workerRun` — the try/except/finally resource discipline of `Worker.run`,
  including the fact that the local variable `ser` is unbound in the
  finally block when `serial.Serial` itself raised;
* `update_progress`, `handle_flashed`, `uiRun` — the per-board progress
  state driven by the 10-second QTimer and the flashed-signal handler,
  run from the starting value 0 that the tick-arithmetic claims stipulate;
* `update_progressInt`, `handle_flashedInt`, `uiRunInt` — the same two
  handlers on the integer-valued bar from its true initial state: Qt
  initializes a QProgressBar to value -1, the `setRange(0, 100)` call is a
  no-op on the default range, and nothing calls `setValue` before the first
  tick, so the bar is observed at -1 until the first event;
* `update_time` — the elapsed-time label formatting;
* `add_board`, `add_boards`, `stopAt` — board registration in `MainWindow`.

Machine floats are modelled by `ℚ`.  The only float expression in the
program is `value + 100 / 77` where `value` is an integer read back from the
progress bar; the double nearest to 100/77 lies strictly between 1 and 2, so
the truncation int(value + 100/77) agrees with the rational model on every
value the bar can hold.
-/

namespace SoM

/-! ### Line decoding: data = ser.readline().decode("utf-8", errors="ignore").strip() -/

/-- Is `b` a UTF-8 continuation byte (0x80–0xBF)? -/
def cont (b : Nat) : Bool := 0x80 ≤ b && b ≤ 0xBF

/-- Valid second byte after a 3-byte leader `b` (CPython is strict about
overlong encodings and surrogates: E0 needs A0–BF, ED needs 80–9F). -/
def contE (b c : Nat) : Bool :=
  if b = 0xE0 then 0xA0 ≤ c && c ≤ 0xBF
  else if b = 0xED then 0x80 ≤ c && c ≤ 0x9F
  else cont c

/-- Valid second byte after a 4-byte leader `b` (F0 needs 90–BF, F4 needs
80–8F so that code points stay below 0x110000). -/
def contF (b c : Nat) : Bool :=
  if b = 0xF0 then 0x90 ≤ c && c ≤ 0xBF
  else if b = 0xF4 then 0x80 ≤ c && c ≤ 0x8F
  else cont c

/-- Fuel-indexed UTF-8 decoder with errors="ignore" semantics: a valid
sequence yields its code point, an invalid or truncated sequence is dropped
(the examined bytes are skipped) and decoding continues.  Each step consumes
at least one byte, so fuel = length of the input suffices. -/
def utf8DecodeAux : Nat → List Nat → List Char
  | 0, _ => []
  | _ + 1, [] => []
  | fuel + 1, b :: rest =>
    if b < 0x80 then
      Char.ofNat b :: utf8DecodeAux fuel rest
    else if 0xC2 ≤ b && b ≤ 0xDF then
      match rest with
      | [] => []
      | c1 :: r1 =>
        if cont c1 then
          Char.ofNat ((b % 0x20) * 0x40 + c1 % 0x40) :: utf8DecodeAux fuel r1
        else utf8DecodeAux fuel rest
    else if 0xE0 ≤ b && b ≤ 0xEF then
      match rest with
      | [] => []
      | c1 :: r1 =>
        if contE b c1 then
          match r1 with
          | [] => []
          | c2 :: r2 =>
            if cont c2 then
              Char.ofNat ((b % 0x10) * 0x1000 + (c1 % 0x40) * 0x40 + c2 % 0x40)
                :: utf8DecodeAux fuel r2
            else utf8DecodeAux fuel r1
        else utf8DecodeAux fuel rest
    else if 0xF0 ≤ b && b ≤ 0xF4 then
      match rest with
      | [] => []
      | c1 :: r1 =>
        if contF b c1 then
          match r1 with
          | [] => []
          | c2 :: r2 =>
            if cont c2 then
              match r2 with
              | [] => []
              | c3 :: r3 =>
                if cont c3 then
                  Char.ofNat ((b % 8) * 0x40000 + (c1 % 0x40) * 0x1000 +
                      (c2 % 0x40) * 0x40 + c3 % 0x40) :: utf8DecodeAux fuel r3
                else utf8DecodeAux fuel r2
            else utf8DecodeAux fuel r1
        else utf8DecodeAux fuel rest
    else
      utf8DecodeAux fuel rest

/-- decode("utf-8", errors="ignore"): total, never raises. -/
def utf8DecodeIgnore (bs : List Nat) : List Char :=
  utf8DecodeAux bs.length bs

/-- Python str.strip(): drop leading and trailing whitespace. -/
def pyStrip (cs : List Char) : List Char :=
  ((cs.dropWhile Char.isWhitespace).reverse.dropWhile Char.isWhitespace).reverse

/-- The decoded, stripped text of one raw line, as produced by
`ser.readline().decode("utf-8", errors="ignore").strip()`. -/
def lineText (bs : List Nat) : String :=
  String.mk (pyStrip (utf8DecodeIgnore bs))

/-- Substring test on character lists, modelling the Python `in` operator. -/
def containsSeq (needle : List Char) : List Char → Bool
  | [] => needle.isEmpty
  | hay@(_ :: rest) => needle.isPrefixOf hay || containsSeq needle rest

/-- `strContains needle s` models the Python expression `needle in s`. -/
def strContains (needle s : String) : Bool :=
  containsSeq needle.data s.data

/-- The completion marker checked by `Worker.run`. -/
def marker : String := "Span Gateway 2.0.0 span-gateway"

/-! ### Worker events and the read loop of `Worker.run` -/

/-- The pyqtSignal emissions of a `Worker`, under the names the spec gives
them.  The code sends decode errors and serial-port errors on the same
`error_signal`; the payload message distinguishes them, so we keep the two
spec-level constructors. -/
inductive Event where
  | LineReceived : Nat → String → Event
  | DecodeError : Nat → String → Event
  | PortError : Nat → String → Event
  | FirstTransmission : Nat → Event
  | Flashed : Nat → Event
deriving DecidableEq

def Event.isLineReceived : Event → Bool
  | .LineReceived _ _ => true
  | _ => false

def Event.isDecodeError : Event → Bool
  | .DecodeError _ _ => true
  | _ => false

def Event.isFirstTransmission : Event → Bool
  | .FirstTransmission _ => true
  | _ => false

def Event.isFlashed : Event → Bool
  | .Flashed _ => true
  | _ => false

/-- The mutable attributes of a `Worker` that its read loop touches. -/
structure WorkerState where
  board_id : Nat
  running : Bool
  first_transmission_received : Bool
deriving DecidableEq

/-- `Worker.__init__`: running = True, first_transmission_received = False. -/
def initWorker (id : Nat) : WorkerState :=
  ⟨id, true, false⟩

/-- One iteration of the `Worker.run` loop body on a raw line that arrived.
Decoding uses errors="ignore" and therefore never raises, so the
`except UnicodeDecodeError` branch of the source (which would emit the
decode-error message on `error_signal`) is unreachable: no `DecodeError`
event is ever produced.  The first-transmission check precedes the log
emission, and the marker check follows it, exactly as in the source. -/
def processLine (w : WorkerState) (bs : List Nat) : WorkerState × List Event :=
  if w.first_transmission_received then
    (w, Event.LineReceived w.board_id (lineText bs) ::
        (if strContains marker (lineText bs) then
          [Event.Flashed w.board_id] else []))
  else
    ({ w with first_transmission_received := true },
     Event.FirstTransmission w.board_id ::
     Event.LineReceived w.board_id (lineText bs) ::
       (if strContains marker (lineText bs) then
         [Event.Flashed w.board_id] else []))

/-- The `while self.running` loop of `Worker.run`, applied to the sequence of
raw lines offered by the port.  The flag is checked at the top of each
iteration; nothing in the body clears it. -/
def runLines : WorkerState → List (List Nat) → WorkerState × List Event
  | w, [] => (w, [])
  | w, bs :: rest =>
    if w.running then
      let p := processLine w bs
      let r := runLines p.1 rest
      (r.1, p.2 ++ r.2)
    else (w, [])

/-! ### The try/except/finally structure of `Worker.run`

The source reads:

  try:
      ser = serial.Serial(self.port, self.baudrate, timeout=1)
      while self.running: ...
  except serial.SerialException as e:
      self.error_signal.emit(self.board_id, f"Serial port error: ...")
  finally:
      if ser.is_open:
          ser.close()

We model the local variable `ser` as an `Option SerialHandle`: it is `none`
precisely when `serial.Serial` itself raised, in which case evaluating
`ser.is_open` in the finally block raises UnboundLocalError. -/

structure SerialHandle where
  is_open : Bool
deriving DecidableEq

/-- The finally block: returns how many times `ser.close()` ran and whether
the block itself raised (it does when `ser` is unbound). -/
def finallyClose : Option SerialHandle → Nat × Bool
  | none => (0, true)
  | some h => if h.is_open then (1, false) else (0, false)

/-- Which exit route the try body takes: the loop ends normally (stop flag
cleared), `serial.Serial` raises on open, or a serial I/O call raises after
`k` lines were handled. -/
inductive ExitRoute where
  | normal
  | openFail
  | ioFailAfter (k : Nat)
deriving DecidableEq

/-- The try body together with the except clause: the events emitted and the
state of the local variable `ser` when control reaches the finally block.
On both failure routes the except clause emits the serial-port error on
`error_signal` (spec name `PortError`); only on the open failure is `ser`
still unbound. -/
def tryBody (ex : ExitRoute) (id : Nat) (lines : List (List Nat)) :
    List Event × Option SerialHandle :=
  match ex with
  | .openFail => ([Event.PortError id "Serial port error"], none)
  | .normal => ((runLines (initWorker id) lines).2, some ⟨true⟩)
  | .ioFailAfter k =>
    ((runLines (initWorker id) (lines.take k)).2 ++
       [Event.PortError id "Serial port error"], some ⟨true⟩)

/-- `Worker.run` as a whole: the emitted events, the number of times the
serial handle was closed, and whether the method raised out of the finally
block. -/
def workerRun (ex : ExitRoute) (id : Nat) (lines : List (List Nat)) :
    List Event × Nat × Bool :=
  let b := tryBody ex id lines
  let f := finallyClose b.2
  (b.1, f.1, f.2)

/-! ### Progress updates: `MainWindow.update_progress` and `handle_flashed`

`QProgressBar` stores an integer value in its range [0, 100]; `value()`
reads it back and `setValue` ignores an argument outside the range. -/

/-- Python int() on a rational: truncation toward zero. -/
def pyInt (q : ℚ) : ℤ :=
  if 0 ≤ q then ⌊q⌋ else ⌈q⌉

/-- `int(value + 100 / 77)` for the integer `value` read from the bar. -/
def progressNext (v : Nat) : Nat :=
  (pyInt ((v : ℚ) + 100 / 77)).toNat

/-- `QProgressBar.setValue`: stores the new value when it lies inside the
range [0, 100] and otherwise leaves the bar unchanged. -/
def setValue (old v : Nat) : Nat :=
  if v ≤ 100 then v else old

/-- The per-board state touched by the progress tick and the flashed
handler: the bar value, whether the 10-second QTimer is still active,
whether the worker has been stopped, and how many times the completion text
"This board is flashed successfully" was appended to the log. -/
structure BoardUI where
  value : Nat
  timerActive : Bool
  workerRunning : Bool
  completionLogs : Nat
deriving DecidableEq

/-- The progress state with the bar at the starting value 0 that the
tick-arithmetic claims stipulate ("starting from progress 0"), timer
running, worker running, no completion text logged.  A freshly created Qt
bar actually reads -1 until the first `setValue`; that observation is
modelled by `initBarUI` below and does not affect runs that start at 0. -/
def initBoard : BoardUI :=
  ⟨0, true, true, 0⟩

/-- `MainWindow.update_progress`: one 10-second tick.  Below 100 the bar is
set to int(value + 100/77); once the read-back value is at least 100 the
timer is stopped, the bar pinned at 100, the completion text logged and the
worker stopped.  A tick after the timer stopped does nothing. -/
def update_progress (st : BoardUI) : BoardUI :=
  if st.timerActive then
    if st.value < 100 then
      { st with value := setValue st.value (progressNext st.value) }
    else
      { st with timerActive := false,
                value := setValue st.value 100,
                completionLogs := st.completionLogs + 1,
                workerRunning := false }
  else st

/-- `MainWindow.handle_flashed`: sets the bar to 100 (and shows a dialog,
which carries no state we track).  It does not stop the worker. -/
def handle_flashed (st : BoardUI) : BoardUI :=
  { st with value := setValue st.value 100 }

/-- The two stimuli that reach a board's progress state. -/
inductive UIEvent where
  | tick
  | flashed
deriving DecidableEq

def uiStep (st : BoardUI) : UIEvent → BoardUI
  | .tick => update_progress st
  | .flashed => handle_flashed st

/-- The board state after a sequence of ticks and flashed signals. -/
def uiRun (evs : List UIEvent) : BoardUI :=
  evs.foldl uiStep initBoard

/-- `n` consecutive 10-second ticks with no marker event. -/
def ticks (n : Nat) : List UIEvent :=
  List.replicate n UIEvent.tick

/-! ### The bar from its true initial value

`add_board` creates the QProgressBar and never calls `setValue` on it; Qt
initializes a progress bar to minimum 0, maximum 100 and value -1 (the
reset state), and `progress_bar.setRange(0, 100)` leaves the default range
— and hence the value — untouched.  So from registration until the first
tick or flashed signal the observable bar value is -1.  `BarUI` carries the
value as an integer so that this observation is representable. -/

structure BarUI where
  value : ℤ
  timerActive : Bool
  workerRunning : Bool
  completionLogs : Nat
deriving DecidableEq

/-- The state in which a board starts: timers as armed by `start_timers`,
bar still at its fresh Qt value -1, nothing logged. -/
def initBarUI : BarUI :=
  ⟨-1, true, true, 0⟩

/-- `QProgressBar.setValue` on the integer-valued bar: stores the argument
when it lies inside the range [0, 100] and otherwise leaves the bar
unchanged. -/
def setValueInt (old v : ℤ) : ℤ :=
  if 0 ≤ v ∧ v ≤ 100 then v else old

/-- `MainWindow.update_progress` on the integer-valued bar: the same code
as `update_progress` above, reading back whatever integer the bar holds
(including the initial -1). -/
def update_progressInt (st : BarUI) : BarUI :=
  if st.timerActive then
    if st.value < 100 then
      { st with value := setValueInt st.value (pyInt ((st.value : ℚ) + 100 / 77)) }
    else
      { st with timerActive := false,
                value := setValueInt st.value 100,
                completionLogs := st.completionLogs + 1,
                workerRunning := false }
  else st

/-- `MainWindow.handle_flashed` on the integer-valued bar. -/
def handle_flashedInt (st : BarUI) : BarUI :=
  { st with value := setValueInt st.value 100 }

def uiStepInt (st : BarUI) : UIEvent → BarUI
  | .tick => update_progressInt st
  | .flashed => handle_flashedInt st

/-- The bar state after a sequence of ticks and flashed signals, starting
from the fresh bar. -/
def uiRunInt (evs : List UIEvent) : BarUI :=
  evs.foldl uiStepInt initBarUI

/-! ### Elapsed-time formatting: `MainWindow.update_time` -/

def digitChar (n : Nat) : Char := Char.ofNat (48 + n)

def natDigitsAux : Nat → Nat → List Char
  | 0, _ => []
  | fuel + 1, n =>
    if n < 10 then [digitChar n]
    else natDigitsAux fuel (n / 10) ++ [digitChar (n % 10)]

/-- Decimal digits of `n`, most significant first. -/
def natDigits (n : Nat) : List Char :=
  natDigitsAux (n + 1) n

/-- Zero-pad to width `w`, as the Python format specifiers 02 and 03 do. -/
def zfill (w : Nat) (cs : List Char) : List Char :=
  List.replicate (w - cs.length) '0' ++ cs

def fmt2 (n : Nat) : String := String.mk (zfill 2 (natDigits n))

def fmt3 (n : Nat) : String := String.mk (zfill 3 (natDigits n))

/-- `MainWindow.update_time` on an elapsed millisecond count: the string
shown in the time label. -/
def update_time (elapsed : Nat) : String :=
  let milliseconds := elapsed % 1000
  let seconds := (elapsed / 1000) % 60
  let minutes := (elapsed / 60000) % 60
  let hours := (elapsed / 3600000) % 24
  fmt2 hours ++ ":" ++ fmt2 minutes ++ ":" ++ fmt2 seconds ++ "." ++ fmt3 milliseconds

/-! ### Board registration: `MainWindow.add_boards` / `add_board`

`self.workers` only ever grows: `add_board` appends, and stopping a worker
(update_progress timeout or closeEvent) clears its running flag but removes
nothing from the list.  `add_boards` assigns `board_id = len(self.workers)`
immediately before each append. -/

structure BoardRec where
  board_id : Nat
  running : Bool
deriving DecidableEq

structure MainState where
  workers : List BoardRec
deriving DecidableEq

/-- `MainWindow.add_board`: appends a started worker carrying the id it was
given. -/
def add_board (st : MainState) (id : Nat) : MainState :=
  ⟨st.workers ++ [⟨id, true⟩]⟩

/-- `MainWindow.add_boards` over `n` detected ports: each iteration reads
`board_id = len(self.workers)` and calls `add_board`. -/
def add_boards (st : MainState) : Nat → MainState
  | 0 => st
  | n + 1 => add_boards (add_board st st.workers.length) n

/-- `worker.stop()` on the worker at position `i`: clears its running flag,
leaving the list itself untouched. -/
def stopAt : List BoardRec → Nat → List BoardRec
  | [], _ => []
  | w :: ws, 0 => ⟨w.board_id, false⟩ :: ws
  | w :: ws, i + 1 => w :: stopAt ws i

/-- The operations that touch the registry over a process lifetime. -/
inductive RegOp where
  | addBoards (nports : Nat)
  | stopBoard (i : Nat)
deriving DecidableEq

def applyOp (st : MainState) : RegOp → MainState
  | .addBoards n => add_boards st n
  | .stopBoard i => ⟨stopAt st.workers i⟩

def applyOps : MainState → List RegOp → MainState
  | st, [] => st
  | st, op :: ops => applyOps (applyOp st op) ops

/-! ### Helper lemmas about the worker read loop -/

theorem processLine_fst_running (w : WorkerState) (bs : List Nat) :
    (processLine w bs).1.running = w.running := by
  unfold processLine
  split <;> rfl

theorem processLine_fst_board_id (w : WorkerState) (bs : List Nat) :
    (processLine w bs).1.board_id = w.board_id := by
  unfold processLine
  split <;> rfl

theorem processLine_fst_ftr (w : WorkerState) (bs : List Nat) :
    (processLine w bs).1.first_transmission_received = true := by
  unfold processLine
  split <;> simp_all

theorem processLine_countP_flashed (w : WorkerState) (bs : List Nat) :
    (processLine w bs).2.countP Event.isFlashed
      = if strContains marker (lineText bs) then 1 else 0 := by
  unfold processLine
  split <;> split <;>
    simp [List.countP_cons, List.countP_nil, Event.isFlashed,
      Event.isLineReceived, Event.isFirstTransmission]

theorem processLine_countP_ft (w : WorkerState) (bs : List Nat) :
    (processLine w bs).2.countP Event.isFirstTransmission
      = if w.first_transmission_received then 0 else 1 := by
  unfold processLine
  split <;> rename_i h <;>
    simp [h, List.countP_cons, List.countP_nil, Event.isFlashed,
      Event.isLineReceived, Event.isFirstTransmission]

theorem processLine_countP_decode (w : WorkerState) (bs : List Nat) :
    (processLine w bs).2.countP Event.isDecodeError = 0 := by
  unfold processLine
  split <;>
    simp [List.countP_cons, List.countP_nil, Event.isDecodeError]

theorem processLine_filter_lr (w : WorkerState) (bs : List Nat) :
    (processLine w bs).2.filter Event.isLineReceived
      = [Event.LineReceived w.board_id (lineText bs)] := by
  unfold processLine
  split <;>
    simp [List.filter, Event.isLineReceived, Event.isFirstTransmission]

theorem runLines_fst_running (lines : List (List Nat)) :
    ∀ w : WorkerState, (runLines w lines).1.running = w.running := by
  induction lines with
  | nil => intro w; rfl
  | cons bs rest ih =>
    intro w
    by_cases h : w.running = true
    · simp [runLines, h, ih, processLine_fst_running]
    · simp [runLines, h]

theorem runLines_countP_ft_zero (lines : List (List Nat)) :
    ∀ w : WorkerState, w.first_transmission_received = true →
      (runLines w lines).2.countP Event.isFirstTransmission = 0 := by
  induction lines with
  | nil => intro w _; rfl
  | cons bs rest ih =>
    intro w hw
    by_cases h : w.running = true
    · simp [runLines, h, List.countP_append, processLine_countP_ft, hw,
        ih _ (processLine_fst_ftr w bs)]
    · simp [runLines, h]

theorem runLines_countP_flashed (lines : List (List Nat)) :
    ∀ w : WorkerState, w.running = true →
      (runLines w lines).2.countP Event.isFlashed
        = lines.countP (fun bs => strContains marker (lineText bs)) := by
  induction lines with
  | nil => intro w _; rfl
  | cons bs rest ih =>
    intro w hw
    have hw1 : (processLine w bs).1.running = true := by
      rw [processLine_fst_running]; exact hw
    simp only [runLines, hw, if_true, List.countP_append, List.countP_cons]
    rw [processLine_countP_flashed, ih _ hw1]
    by_cases hm : strContains marker (lineText bs) = true <;> simp [hm] <;> omega

theorem runLines_countP_decode_zero (lines : List (List Nat)) :
    ∀ w : WorkerState,
      (runLines w lines).2.countP Event.isDecodeError = 0 := by
  induction lines with
  | nil => intro w; rfl
  | cons bs rest ih =>
    intro w
    by_cases h : w.running = true
    · simp [runLines, h, List.countP_append, processLine_countP_decode, ih]
    · simp [runLines, h]

theorem runLines_filter_lr (lines : List (List Nat)) :
    ∀ w : WorkerState, w.running = true →
      (runLines w lines).2.filter Event.isLineReceived
        = lines.map (fun bs => Event.LineReceived w.board_id (lineText bs)) := by
  induction lines with
  | nil => intro w _; rfl
  | cons bs rest ih =>
    intro w hw
    have hw1 : (processLine w bs).1.running = true := by
      rw [processLine_fst_running]; exact hw
    simp only [runLines, hw, if_true, List.filter_append, List.map]
    rw [processLine_filter_lr, ih _ hw1, processLine_fst_board_id]
    rfl

/-! ### Helper lemmas about the progress model -/

theorem floor_hundred_div : ⌊(100 / 77 : ℚ)⌋ = 1 := by
  rw [Int.floor_eq_iff]
  norm_num

/-- The heart of the progress arithmetic: `value()` returns an integer, so
int(value + 100/77) is exactly value + 1 — the fractional 0.2987… is thrown
away on every tick. -/
theorem progressNext_eq (v : Nat) : progressNext v = v + 1 := by
  have h0 : (0 : ℚ) ≤ (v : ℚ) + 100 / 77 := by positivity
  have hf : ⌊(v : ℚ) + 100 / 77⌋ = 1 + (v : ℤ) := by
    rw [add_comm ((v : ℚ)) ((100 / 77 : ℚ)), Int.floor_add_nat, floor_hundred_div]
  simp only [progressNext, pyInt, if_pos h0, hf]
  omega

theorem update_progress_lt (st : BoardUI) (ht : st.timerActive = true)
    (hv : st.value < 100) :
    update_progress st = { st with value := st.value + 1 } := by
  have h1 : st.value + 1 ≤ 100 := hv
  simp [update_progress, ht, hv, setValue, progressNext_eq, h1]

theorem uiRun_append (evs more : List UIEvent) :
    uiRun (evs ++ more) = List.foldl uiStep (uiRun evs) more := by
  simp [uiRun, List.foldl_append]

theorem ticks_succ (n : Nat) : ticks (n + 1) = ticks n ++ [UIEvent.tick] := by
  simp [ticks, List.replicate_succ']

theorem uiRun_ticks : ∀ n : Nat, n ≤ 100 → uiRun (ticks n) = ⟨n, true, true, 0⟩ := by
  intro n
  induction n with
  | zero => intro _; rfl
  | succ k ih =>
    intro h
    have hk : k ≤ 100 := Nat.le_of_succ_le h
    have hklt : k < 100 := h
    rw [ticks_succ, uiRun_append, ih hk]
    show update_progress ⟨k, true, true, 0⟩ = ⟨k + 1, true, true, 0⟩
    rw [update_progress_lt ⟨k, true, true, 0⟩ rfl hklt]

theorem uiRun_ticks_101 : uiRun (ticks 101) = ⟨100, false, false, 1⟩ := by
  have h : (101 : Nat) = 100 + 1 := rfl
  rw [h, ticks_succ, uiRun_append, uiRun_ticks 100 (by omega)]
  rfl

theorem uiRun_ticks_102 : uiRun (ticks 102) = ⟨100, false, false, 1⟩ := by
  have h : (102 : Nat) = 101 + 1 := rfl
  rw [h, ticks_succ, uiRun_append, uiRun_ticks_101]
  rfl

/-! ### Helper lemmas about the integer-valued bar -/

/-- int(value + 100/77) is value + 1 for every integer value the bar can
read back, including the fresh -1 (where -1 + 1.2987… truncates to 0). -/
theorem pyInt_add_ratio (v : ℤ) (h : -1 ≤ v) :
    pyInt ((v : ℚ) + 100 / 77) = v + 1 := by
  have hv : (-1 : ℚ) ≤ (v : ℚ) := by exact_mod_cast h
  have hr : (1 : ℚ) ≤ 100 / 77 := by norm_num
  have h0 : (0 : ℚ) ≤ (v : ℚ) + 100 / 77 := by linarith
  have hf : ⌊(v : ℚ) + 100 / 77⌋ = 1 + v := by
    rw [add_comm ((v : ℚ)) ((100 / 77 : ℚ)), Int.floor_add_int, floor_hundred_div]
  simp only [pyInt, if_pos h0, hf]
  omega

theorem update_progressInt_lt (st : BarUI) (ht : st.timerActive = true)
    (h1 : -1 ≤ st.value) (hv : st.value < 100) :
    update_progressInt st = { st with value := st.value + 1 } := by
  have hp := pyInt_add_ratio st.value h1
  have hb : 0 ≤ st.value + 1 ∧ st.value + 1 ≤ 100 := by omega
  simp [update_progressInt, ht, hv, hp, setValueInt, hb.1, hb.2]

theorem handle_flashedInt_eq (st : BarUI) :
    handle_flashedInt st = { st with value := 100 } := by
  simp [handle_flashedInt, setValueInt]

/-- The first event moves the bar from -1 into [0, 100]: a tick stores
int(-1 + 100/77) = 0, a flashed signal stores 100. -/
theorem uiStepInt_first (e : UIEvent) :
    0 ≤ (uiStepInt initBarUI e).value ∧ (uiStepInt initBarUI e).value ≤ 100 := by
  cases e with
  | tick =>
    show 0 ≤ (update_progressInt initBarUI).value ∧
      (update_progressInt initBarUI).value ≤ 100
    rw [update_progressInt_lt initBarUI rfl (by decide) (by decide)]
    decide
  | flashed =>
    show 0 ≤ (handle_flashedInt initBarUI).value ∧
      (handle_flashedInt initBarUI).value ≤ 100
    rw [handle_flashedInt_eq]
    decide

theorem uiStepInt_bounds (st : BarUI) (e : UIEvent)
    (h1 : 0 ≤ st.value) (h2 : st.value ≤ 100) :
    st.value ≤ (uiStepInt st e).value ∧
    0 ≤ (uiStepInt st e).value ∧ (uiStepInt st e).value ≤ 100 := by
  cases e with
  | tick =>
    show st.value ≤ (update_progressInt st).value ∧
      0 ≤ (update_progressInt st).value ∧ (update_progressInt st).value ≤ 100
    by_cases ht : st.timerActive = true
    · by_cases hv : st.value < 100
      · have hval : (update_progressInt st).value = st.value + 1 := by
          rw [update_progressInt_lt st ht (by omega) hv]
        omega
      · have hval : (update_progressInt st).value = 100 := by
          simp [update_progressInt, ht, hv, setValueInt]
        omega
    · have hval : update_progressInt st = st := by
        simp [update_progressInt, ht]
      rw [hval]
      omega
  | flashed =>
    show st.value ≤ (handle_flashedInt st).value ∧
      0 ≤ (handle_flashedInt st).value ∧ (handle_flashedInt st).value ≤ 100
    have hval : (handle_flashedInt st).value = 100 := by
      rw [handle_flashedInt_eq]
    omega

theorem uiFoldInt_bounds (evs : List UIEvent) :
    ∀ st : BarUI, 0 ≤ st.value → st.value ≤ 100 →
      st.value ≤ (List.foldl uiStepInt st evs).value ∧
      0 ≤ (List.foldl uiStepInt st evs).value ∧
      (List.foldl uiStepInt st evs).value ≤ 100 := by
  induction evs with
  | nil => intro st h1 h2; exact ⟨le_refl _, h1, h2⟩
  | cons e rest ih =>
    intro st h1 h2
    have hs := uiStepInt_bounds st e h1 h2
    have hr := ih (uiStepInt st e) hs.2.1 hs.2.2
    exact ⟨le_trans hs.1 hr.1, hr.2.1, hr.2.2⟩

theorem uiRunInt_append (evs more : List UIEvent) :
    uiRunInt (evs ++ more) = List.foldl uiStepInt (uiRunInt evs) more := by
  simp [uiRunInt, List.foldl_append]

/-- Bounds on every observation of the bar: the value is never below -1 or
above 100, and after at least one tick or flashed signal it is at least 0
— only the untouched fresh bar shows -1. -/
theorem uiRunInt_bounds (evs : List UIEvent) :
    (-1 : ℤ) ≤ (uiRunInt evs).value ∧ (uiRunInt evs).value ≤ 100 ∧
      (evs ≠ [] → 0 ≤ (uiRunInt evs).value) := by
  cases evs with
  | nil =>
    refine ⟨by decide, by decide, ?_⟩
    intro h
    exact absurd rfl h
  | cons e rest =>
    have hs := uiStepInt_first e
    have hr := uiFoldInt_bounds rest (uiStepInt initBarUI e) hs.1 hs.2
    have h0 : 0 ≤ (uiRunInt (e :: rest)).value := hr.2.1
    have h100 : (uiRunInt (e :: rest)).value ≤ 100 := hr.2.2
    exact ⟨le_trans (by decide) h0, h100, fun _ => h0⟩

/-! ### Helper lemmas about the registry -/

/-- The registry invariant: the stored ids are exactly 0, 1, …, in order. -/
def idsOk (st : MainState) : Prop :=
  st.workers.map BoardRec.board_id = List.range st.workers.length

theorem idsOk_add_board (st : MainState) (h : idsOk st) :
    idsOk (add_board st st.workers.length) := by
  unfold idsOk add_board at *
  simp [List.range_succ, h]

theorem idsOk_add_boards (n : Nat) :
    ∀ st : MainState, idsOk st → idsOk (add_boards st n) := by
  induction n with
  | zero => intro st h; exact h
  | succ k ih =>
    intro st h
    exact ih _ (idsOk_add_board st h)

theorem stopAt_map_id : ∀ (ws : List BoardRec) (i : Nat),
    (stopAt ws i).map BoardRec.board_id = ws.map BoardRec.board_id := by
  intro ws
  induction ws with
  | nil => intro i; rfl
  | cons w rest ih =>
    intro i
    cases i with
    | zero => simp [stopAt]
    | succ j => simp [stopAt, ih j]

theorem idsOk_stop (st : MainState) (i : Nat) (h : idsOk st) :
    idsOk ⟨stopAt st.workers i⟩ := by
  unfold idsOk at *
  have hm := stopAt_map_id st.workers i
  have hl : (stopAt st.workers i).length = st.workers.length := by
    have h2 := congrArg List.length hm
    simpa using h2
  simp only at hm hl ⊢
  rw [hm, hl, h]

theorem idsOk_applyOps : ∀ (ops : List RegOp) (st : MainState),
    idsOk st → idsOk (applyOps st ops) := by
  intro ops
  induction ops with
  | nil => intro st h; exact h
  | cons op rest ih =>
    intro st h
    cases op with
    | addBoards n => exact ih _ (idsOk_add_boards n st h)
    | stopBoard i => exact ih _ (idsOk_stop st i h)

/-! ### The claims -/

/-- The marker line itself, as the raw ASCII bytes a board would send. -/
def markerLine : List Nat := marker.data.map Char.toNat

/-- C1, counterexample: an input stream whose two lines both contain the
completion marker makes `Worker.run` emit the Flashed event twice, not
exactly once — the source has no once-per-session latch on
`flashed_signal` (unlike `first_transmission_signal`). -/
theorem c1_counterexample :
    ([markerLine, markerLine].countP
        (fun bs => strContains marker (lineText bs)) = 2) ∧
    (runLines (initWorker 0) [markerLine, markerLine]).2.countP
        Event.isFlashed = 2 ∧
    ¬ ((runLines (initWorker 0) [markerLine, markerLine]).2.countP
        Event.isFlashed = 1) := by
  decide

/-- C1, amended: for every session and every input stream, the Flashed
event is emitted exactly once per marker-containing line — k lines holding
the marker yield exactly k Flashed emissions, so at least one, but not
exactly one per session when k > 1. -/
theorem c1_flashed_once_per_marker_line (id : Nat) (lines : List (List Nat)) :
    (runLines (initWorker id) lines).2.countP Event.isFlashed
      = lines.countP (fun bs => strContains marker (lineText bs)) :=
  runLines_countP_flashed lines (initWorker id) rfl

/-- C2: evaluating the timeout path.  Starting from progress 0, after 77
ticks the bar reads 77, not 100 (each tick stores int(value + 100/77) of
the integer read back, i.e. adds exactly 1); the bar first shows 100 after
the 100th tick; the stop-and-log side effects of the timeout branch (timer
stopped, bar pinned at 100, completion text logged once, worker stopped)
happen on the 101st tick; a 102nd tick changes nothing.  `update_progress`
emits no Flashed signal at all — the timeout branch only appends the
completion text to the log. -/
theorem c2_timeout_path_eval :
    (uiRun (ticks 77)).value = 77 ∧
    (uiRun (ticks 77)).value ≠ 100 ∧
    (uiRun (ticks 100)).value = 100 ∧
    uiRun (ticks 101) = ⟨100, false, false, 1⟩ ∧
    uiRun (ticks 102) = ⟨100, false, false, 1⟩ := by
  have h77 := uiRun_ticks 77 (by omega)
  have h100 := uiRun_ticks 100 (by omega)
  rw [h77, h100]
  exact ⟨rfl, by decide, rfl, uiRun_ticks_101, uiRun_ticks_102⟩

/-- C3: evaluating decode-error handling.  A chunk with the invalid byte
0xFF produces zero DecodeError events — decode("utf-8", errors="ignore")
never raises, so the except branch of `Worker.run` that would report the
error is unreachable and the byte is dropped silently; the session does
continue with the next line (the final conjunct shows no input whatsoever
can produce a DecodeError event). -/
theorem c3_decode_error_eval :
    (runLines (initWorker 0) [[65, 255, 66], [67]]).2
        = [Event.FirstTransmission 0, Event.LineReceived 0 "AB",
           Event.LineReceived 0 "C"] ∧
    (runLines (initWorker 0) [[65, 255, 66], [67]]).2.countP
        Event.isDecodeError = 0 ∧
    (runLines (initWorker 0) [[65, 255, 66], [67]]).1.running = true ∧
    (∀ (w : WorkerState) (lines : List (List Nat)),
        (runLines w lines).2.countP Event.isDecodeError = 0) := by
  refine ⟨by decide, by decide, by decide, ?_⟩
  intro w lines
  exact runLines_countP_decode_zero lines w

/-- C4: evaluating the release path on each exit route.  When
`serial.Serial` itself raises, the local `ser` is unbound, so the guarded
release `if ser.is_open: ser.close()` in the finally block raises
UnboundLocalError and the handle is closed zero times — the release path is
not raise-free on the open-failure route.  On normal termination and on a
mid-loop I/O failure the handle is closed exactly once and the finally
block does not raise. -/
theorem c4_release_path_eval :
    workerRun ExitRoute.openFail 7 []
        = ([Event.PortError 7 "Serial port error"], 0, true) ∧
    workerRun ExitRoute.normal 7 [] = ([], 1, false) ∧
    workerRun (ExitRoute.ioFailAfter 0) 7 [[65]]
        = ([Event.PortError 7 "Serial port error"], 1, false) := by
  decide

/-- C5, counterexample: before any tick or flashed signal — from board
registration until the first event — the observable bar value is the fresh
Qt value -1, which is below 0, so the progress value is observed below 0. -/
theorem c5_counterexample :
    (uiRunInt []).value = -1 ∧ (uiRunInt []).value < 0 := by
  exact ⟨rfl, by decide⟩

/-- C5 (amended): over every sequence of ticks and flashed signals, the
bar value is non-decreasing as further events arrive and is never observed
above 100 nor below -1; the value below 0 is observed only on the fresh
untouched bar — after at least one event the value lies within [0, 100]. -/
theorem c5_progress_monotone_bounded_amended (evs more : List UIEvent) :
    (-1 : ℤ) ≤ (uiRunInt evs).value ∧
    (uiRunInt evs).value ≤ 100 ∧
    (uiRunInt evs).value ≤ (uiRunInt (evs ++ more)).value ∧
    (evs ≠ [] → 0 ≤ (uiRunInt evs).value) := by
  have hb := uiRunInt_bounds evs
  refine ⟨hb.1, hb.2.1, ?_, hb.2.2⟩
  cases evs with
  | nil =>
    have h1 : (uiRunInt ([] ++ more)).value = (uiRunInt more).value := by
      rw [List.nil_append]
    have h2 : (uiRunInt []).value = -1 := rfl
    rw [h1, h2]
    exact (uiRunInt_bounds more).1
  | cons e rest =>
    rw [uiRunInt_append]
    have hs := uiStepInt_first e
    have hr := uiFoldInt_bounds rest (uiStepInt initBarUI e) hs.1 hs.2
    have h0 : 0 ≤ (uiRunInt (e :: rest)).value := hr.2.1
    have h100 : (uiRunInt (e :: rest)).value ≤ 100 := hr.2.2
    exact (uiFoldInt_bounds more (uiRunInt (e :: rest)) h0 h100).1

/-- C5, witness: the amended theorem applied at a concrete event sequence —
after one tick the bar reads at least 0. -/
theorem c5_progress_monotone_bounded_amended_witness :
    0 ≤ (uiRunInt [UIEvent.tick]).value :=
  (c5_progress_monotone_bounded_amended [UIEvent.tick] []).2.2.2 (by decide)

/-- C6: the stored progress is integral and each tick adds exactly one
percentage point — int(value + 100/77) = value + 1 for every integer value
read back from the bar — so the bar shows n after n ticks (n ≤ 100),
reaches 100 only on the 100th tick, and does not show 100 after 77 ticks. -/
theorem c6_integer_ticks :
    (∀ v : Nat, progressNext v = v + 1) ∧
    (∀ n : Nat, n ≤ 100 → (uiRun (ticks n)).value = n) ∧
    (uiRun (ticks 100)).value = 100 ∧
    (uiRun (ticks 77)).value ≠ 100 := by
  refine ⟨progressNext_eq, ?_, ?_, ?_⟩
  · intro n h
    rw [uiRun_ticks n h]
  · rw [uiRun_ticks 100 (by omega)]
  · rw [uiRun_ticks 77 (by omega)]
    decide

/-- C6, witness: the theorem applied at concrete inputs. -/
theorem c6_integer_ticks_witness :
    progressNext 0 = 1 ∧ (uiRun (ticks 3)).value = 3 :=
  ⟨c6_integer_ticks.1 0, c6_integer_ticks.2.1 3 (by decide)⟩

/-- C7: the elapsed-time label formats milliseconds as
hours:minutes:seconds.milliseconds with zero-padded fields, and hours wrap
modulo 24: 3661234 ms shows 01:01:01.234, and 86400000 ms (24 h) wraps the
hour field back to 00. -/
theorem c7_elapsed_time_format :
    update_time 3661234 = "01:01:01.234" ∧
    update_time 86400000 = "00:00:00.000" := by
  exact ⟨by decide, by decide⟩

/-- C8: on every nonempty input stream the FirstTransmission event is
emitted exactly once, and it is the very first event of the session — in
particular it precedes every LineReceived event. -/
theorem c8_first_transmission_first (id : Nat) (bs : List Nat)
    (rest : List (List Nat)) :
    (runLines (initWorker id) (bs :: rest)).2.head?
        = some (Event.FirstTransmission id) ∧
    (runLines (initWorker id) (bs :: rest)).2.countP
        Event.isFirstTransmission = 1 := by
  have hp : processLine (initWorker id) bs
      = ({ initWorker id with first_transmission_received := true },
         Event.FirstTransmission id ::
         Event.LineReceived id (lineText bs) ::
           (if strContains marker (lineText bs) then [Event.Flashed id]
            else [])) := by
    simp [processLine, initWorker]
  have hr : runLines (initWorker id) (bs :: rest)
      = ((runLines (processLine (initWorker id) bs).1 rest).1,
         (processLine (initWorker id) bs).2 ++
           (runLines (processLine (initWorker id) bs).1 rest).2) := by
    simp [runLines, initWorker]
  have hz := runLines_countP_ft_zero rest
    ({ initWorker id with first_transmission_received := true }) rfl
  rw [hr, hp]
  constructor
  · rfl
  · simp only [List.countP_append, List.countP_cons, hz]
    by_cases hm : strContains marker (lineText bs) = true <;>
      simp [hm, Event.isFirstTransmission]

/-- C9: over any sequence of board additions and worker stops, the stored
board ids are exactly 0, 1, 2, … in order of registration: distinct,
strictly increasing, and never reassigned or reused, because stopping a
worker never removes it from `self.workers` and each new id is the current
list length. -/
theorem c9_register_ids (ops : List RegOp) :
    (applyOps ⟨[]⟩ ops).workers.map BoardRec.board_id
        = List.range (applyOps ⟨[]⟩ ops).workers.length ∧
    ((applyOps ⟨[]⟩ ops).workers.map BoardRec.board_id).Nodup ∧
    List.Pairwise (fun a b => a < b)
      ((applyOps ⟨[]⟩ ops).workers.map BoardRec.board_id) := by
  have h := idsOk_applyOps ops ⟨[]⟩ rfl
  unfold idsOk at h
  refine ⟨h, ?_, ?_⟩
  · rw [h]
    exact List.nodup_range _
  · rw [h]
    exact List.pairwise_lt_range _

/-- C10: a marker match does not stop the read loop — for every input
stream the loop leaves the running flag set and emits one LineReceived per
line, in order, including lines after a marker line; the flashed handler
does not stop the worker; a progress tick below 100 does not stop the
worker; only the timeout branch (read-back value at 100 with the timer
active) stops it. -/
theorem c10_marker_does_not_stop :
    (∀ (id : Nat) (lines : List (List Nat)),
        (runLines (initWorker id) lines).1.running = true ∧
        (runLines (initWorker id) lines).2.filter Event.isLineReceived
          = lines.map (fun bs => Event.LineReceived id (lineText bs))) ∧
    (∀ st : BoardUI, (handle_flashed st).workerRunning = st.workerRunning) ∧
    (∀ st : BoardUI, st.timerActive = true → st.value < 100 →
        (update_progress st).workerRunning = st.workerRunning) ∧
    (update_progress ⟨100, true, true, 0⟩).workerRunning = false := by
  refine ⟨?_, ?_, ?_, by decide⟩
  · intro id lines
    constructor
    · rw [runLines_fst_running]
      rfl
    · exact runLines_filter_lr lines (initWorker id) rfl
  · intro st
    rfl
  · intro st ht hv
    rw [update_progress_lt st ht hv]

/-- C10, witness: the theorem applied at a concrete state — a tick at
progress 0 leaves the worker running. -/
theorem c10_marker_does_not_stop_witness :
    (update_progress ⟨0, true, true, 0⟩).workerRunning = true :=
  c10_marker_does_not_stop.2.2.1 ⟨0, true, true, 0⟩ rfl (by decide)

end SoM
